import Mathlib

/-!
# Verification of the `mur.count` counting engine

Shallow embedding of the counting/eviction engine of the repository
(`src/mur/count/...`): the `Mod65521`/`Hash` arithmetic pipeline, the
`CountHashTab` sketch row with its pipelined read-modify-write path and its
clear sweep, the `CountMinSketch` minimum reduction and clear timer, the
`RollingCountMinSketch` role-rotation control, the `VolCounter` window
accumulator and the `CMSVolController` decision output.

All registers are modelled as `Nat`/`Bool` fields of explicit state records;
one application of a `step` function is one clock cycle (all right-hand
sides read the pre-clock values, matching `m.d.sync` semantics).  Signal
truncation is written as `% 2 ^ width` exactly where the corresponding
Amaranth signal is narrower than the value assigned to it.
-/

namespace MurCount

/-! ## `mur/count/mod65521.py` — the pipelined `mod 65521` reducer

The pipeline loads the `16 * n`-bit input as `n` 16-bit limbs, most
significant limb first (`limbs[0][rev]` with `rev = n - 1 - i`), then folds
them with `nxt[idx] = ((nxt[idx-1] << 4) - nxt[idx-1]) + limbs[idx][idx]`
on 28-bit signals, folds the 28-bit result to 18 bits via
`(nxt & 0xFFFF) + (((nxt >> 16) << 4) - (nxt >> 16))`, and finally applies
one conditional subtraction `Mux(folded >= 65521, folded - 65521, folded)`
into a 16-bit register. -/

/-- The modulus `65521` used by `Mod65521` (also `CountHashTab._P`). -/
def hashP : Nat := 65521

/-- One Horner stage of `Mod65521`: `(nxt << 4) - nxt + limb` assigned to a
28-bit signal, i.e. `15 * acc + w` truncated to 28 bits. -/
def hornerStep (acc w : Nat) : Nat := (16 * acc - acc + w) % 2 ^ 28

/-- The 16-bit limbs of the input, most significant first: limb position `j`
holds input word `n - 1 - j` (`limbs[0][rev].eq(data.word_select(i, 16))`
with `rev = n - 1 - i`). -/
def limbsMSW (n x : Nat) : List Nat :=
  (List.range n).map fun j => x / 2 ^ (16 * (n - 1 - j)) % 2 ^ 16

/-- The value reaching `nxt[n-1]`: the Horner fold over all limbs, starting
from `nxt[0] = limbs[0][0]` (equal to folding from accumulator `0`). -/
def hornerChain (ws : List Nat) : Nat := ws.foldl hornerStep 0

/-- The `folded` stage on an 18-bit signal:
`(nxt & 0xFFFF) + (((nxt >> 16) << 4) - (nxt >> 16))`. -/
def foldedStage (h : Nat) : Nat :=
  (h % 2 ^ 16 + (h / 2 ^ 16 * 16 - h / 2 ^ 16)) % 2 ^ 18

/-- The registered result `Mux(folded >= 65_521, folded - 65_521, folded)`
assigned to a 16-bit signal. -/
def modResultStage (f : Nat) : Nat :=
  (if 65521 ≤ f then f - 65521 else f) % 2 ^ 16

/-- Output of the `Mod65521` pipeline for a `16 * n`-bit input `x`
(`input_width = 16 * n`, with `n ∈ {2, 3, 4}` accepted by the
constructor). -/
def mod65521 (n x : Nat) : Nat :=
  modResultStage (foldedStage (hornerChain (limbsMSW n x)))

theorem hornerStep_eq (acc w : Nat) (h : 15 * acc + w < 2 ^ 28) :
    hornerStep acc w = 15 * acc + w := by
  unfold hornerStep
  omega

theorem mod_cong_of_add_mul (v x k : Nat) (h : x = v + 65521 * k) :
    v % hashP = x % hashP := by
  subst h
  unfold hashP
  rw [Nat.add_mul_mod_self_left]

/-- The last two stages (`folded`, then the conditional subtraction) reduce any
28-bit Horner value to its exact remainder mod 65521. -/
theorem modResultStage_foldedStage (v : Nat) (hv : v < 2 ^ 28) :
    modResultStage (foldedStage v) = v % hashP := by
  have hf : foldedStage v = v % 2 ^ 16 + 15 * (v / 2 ^ 16) := by
    unfold foldedStage
    omega
  have hb : v % 2 ^ 16 + 15 * (v / 2 ^ 16) < 131042 := by omega
  have hc : (v % 2 ^ 16 + 15 * (v / 2 ^ 16)) % hashP = v % hashP :=
    mod_cong_of_add_mul _ _ (v / 2 ^ 16) (by omega)
  rw [hf]
  unfold modResultStage hashP
  unfold hashP at hc
  generalize hg : v % 2 ^ 16 + 15 * (v / 2 ^ 16) = t at hb hc ⊢
  split <;> omega

/-- `Mod65521` computes the exact remainder for 32-bit inputs
(`input_width = 32`). -/
theorem mod65521_eq_two (x : Nat) (hx : x < 2 ^ 32) :
    mod65521 2 x = x % hashP := by
  have hl : limbsMSW 2 x = [x / 2 ^ 16 % 2 ^ 16, x % 2 ^ 16] := by
    simp [limbsMSW, List.range_succ]
  have hq : x / 2 ^ 16 % 2 ^ 16 = x / 2 ^ 16 := by omega
  have hchain : hornerChain (limbsMSW 2 x) = 15 * (x / 2 ^ 16) + x % 2 ^ 16 := by
    rw [hl, hq]
    unfold hornerChain
    simp only [List.foldl]
    rw [hornerStep_eq 0 _ (by omega), hornerStep_eq _ _ (by omega)]
    omega
  unfold mod65521
  rw [hchain, modResultStage_foldedStage _ (by omega)]
  exact mod_cong_of_add_mul _ _ (x / 2 ^ 16) (by omega)

/-- `Mod65521` computes the exact remainder for 48-bit inputs
(`input_width = 48`). -/
theorem mod65521_eq_three (x : Nat) (hx : x < 2 ^ 48) :
    mod65521 3 x = x % hashP := by
  have hl : limbsMSW 3 x =
      [x / 2 ^ 32 % 2 ^ 16, x / 2 ^ 16 % 2 ^ 16, x % 2 ^ 16] := by
    simp [limbsMSW, List.range_succ]
  have hq : x / 2 ^ 32 % 2 ^ 16 = x / 2 ^ 32 := by omega
  have hdd : x / 2 ^ 16 / 2 ^ 16 = x / 2 ^ 32 := by
    rw [Nat.div_div_eq_div_mul]
    norm_num
  have s1 : hornerStep 0 (x / 2 ^ 32) = x / 2 ^ 32 := by
    unfold hornerStep
    omega
  have s2 : hornerStep (x / 2 ^ 32) (x / 2 ^ 16 % 2 ^ 16) =
      15 * (x / 2 ^ 32) + x / 2 ^ 16 % 2 ^ 16 :=
    hornerStep_eq _ _ (by omega)
  have s3 : hornerStep (15 * (x / 2 ^ 32) + x / 2 ^ 16 % 2 ^ 16) (x % 2 ^ 16) =
      225 * (x / 2 ^ 32) + 15 * (x / 2 ^ 16 % 2 ^ 16) + x % 2 ^ 16 := by
    rw [hornerStep_eq _ _ (by omega)]
    ring
  have hchain : hornerChain (limbsMSW 3 x) =
      225 * (x / 2 ^ 32) + 15 * (x / 2 ^ 16 % 2 ^ 16) + x % 2 ^ 16 := by
    rw [hl]
    unfold hornerChain
    simp only [List.foldl]
    rw [hq, s1, s2, s3]
  unfold mod65521
  rw [hchain, modResultStage_foldedStage _ (by omega)]
  exact mod_cong_of_add_mul _ _ (65551 * (x / 2 ^ 32) + x / 2 ^ 16 % 2 ^ 16)
    (by omega)

/-- `Mod65521` computes the exact remainder for 64-bit inputs
(`input_width = 64`). -/
theorem mod65521_eq_four (x : Nat) (hx : x < 2 ^ 64) :
    mod65521 4 x = x % hashP := by
  have hl : limbsMSW 4 x =
      [x / 2 ^ 48 % 2 ^ 16, x / 2 ^ 32 % 2 ^ 16, x / 2 ^ 16 % 2 ^ 16,
        x % 2 ^ 16] := by
    simp [limbsMSW, List.range_succ]
  have hq : x / 2 ^ 48 % 2 ^ 16 = x / 2 ^ 48 := by omega
  have hdd : x / 2 ^ 16 / 2 ^ 16 = x / 2 ^ 32 := by
    rw [Nat.div_div_eq_div_mul]
    norm_num
  have hdd2 : x / 2 ^ 32 / 2 ^ 16 = x / 2 ^ 48 := by
    rw [Nat.div_div_eq_div_mul]
    norm_num
  have s1 : hornerStep 0 (x / 2 ^ 48) = x / 2 ^ 48 := by
    unfold hornerStep
    omega
  have s2 : hornerStep (x / 2 ^ 48) (x / 2 ^ 32 % 2 ^ 16) =
      15 * (x / 2 ^ 48) + x / 2 ^ 32 % 2 ^ 16 :=
    hornerStep_eq _ _ (by omega)
  have s3 : hornerStep (15 * (x / 2 ^ 48) + x / 2 ^ 32 % 2 ^ 16)
      (x / 2 ^ 16 % 2 ^ 16) =
      225 * (x / 2 ^ 48) + 15 * (x / 2 ^ 32 % 2 ^ 16) +
        x / 2 ^ 16 % 2 ^ 16 := by
    rw [hornerStep_eq _ _ (by omega)]
    ring
  have s4 : hornerStep
      (225 * (x / 2 ^ 48) + 15 * (x / 2 ^ 32 % 2 ^ 16) + x / 2 ^ 16 % 2 ^ 16)
      (x % 2 ^ 16) =
      3375 * (x / 2 ^ 48) + 225 * (x / 2 ^ 32 % 2 ^ 16) +
        15 * (x / 2 ^ 16 % 2 ^ 16) + x % 2 ^ 16 := by
    rw [hornerStep_eq _ _ (by omega)]
    ring
  have hchain : hornerChain (limbsMSW 4 x) =
      3375 * (x / 2 ^ 48) + 225 * (x / 2 ^ 32 % 2 ^ 16) +
        15 * (x / 2 ^ 16 % 2 ^ 16) + x % 2 ^ 16 := by
    rw [hl]
    unfold hornerChain
    simp only [List.foldl]
    rw [hq, s1, s2, s3, s4]
  unfold mod65521
  rw [hchain, modResultStage_foldedStage _ (by omega)]
  exact mod_cong_of_add_mul _ _
    (4295950561 * (x / 2 ^ 48) + 65551 * (x / 2 ^ 32 % 2 ^ 16) +
      x / 2 ^ 16 % 2 ^ 16) (by omega)

/-! ## `mur/count/hash.py` — the `Hash` module

`Hash.input` feeds the key into a first `Mod65521` (of the key width); the
result is multiplied by the 16-bit coefficient `a` and `b` is added, on a
32-bit register (`mul_result.eq(self._a * mod0_res.mod + self._b)`); a second
`Mod65521` with `input_width = 32` reduces that product.  `Hash.result`
returns the final 16-bit remainder. -/

/-- Value produced by the `Hash` pipeline for a `16 * n`-bit key `x` with
coefficients `a`, `b` (both held in 16-bit signals). -/
def hashFn (n a b x : Nat) : Nat :=
  mod65521 2 ((a * mod65521 n x + b) % 2 ^ 32)

/-- The `Hash` pipeline computes exactly `(a * (x mod P) + b) mod P` for all
supported key widths (32/48/64 bits, i.e. `n ∈ {2, 3, 4}` 16-bit words). -/
theorem hashFn_eq (n a b x : Nat) (hn : n = 2 ∨ n = 3 ∨ n = 4)
    (ha : a < 2 ^ 16) (hb : b < 2 ^ 16) (hx : x < 2 ^ (16 * n)) :
    hashFn n a b x = (a * (x % hashP) + b) % hashP := by
  have hmod : mod65521 n x = x % hashP := by
    rcases hn with h | h | h <;> subst h
    · exact mod65521_eq_two x (by omega)
    · exact mod65521_eq_three x (by omega)
    · exact mod65521_eq_four x (by omega)
  have hxp : x % hashP < 65521 := Nat.mod_lt _ (by unfold hashP; omega)
  have hmul : a * (x % hashP) ≤ 65535 * 65520 :=
    Nat.mul_le_mul (by omega) (by omega)
  have hlt : a * (x % hashP) + b < 2 ^ 32 := by omega
  unfold hashFn
  rw [hmod, Nat.mod_eq_of_lt hlt, mod65521_eq_two _ hlt]

/-- Bucket offset within a memory block used by `CountHashTab`
(`res.hash & address_mask` with `address_mask = 2 ^ log_block_size - 1`). -/
def rowBucketOffset (lbs h : Nat) : Nat := h % 2 ^ lbs

/-- Memory-block index used by `CountHashTab`
(`mem_idx_next.eq(res.hash >> log_block_size)` truncated to the width of
`Signal(range(nblocks))`; for a power-of-two block count the truncation is
reduction mod `nblocks`). -/
def rowBlockIndex (lbs nblocks h : Nat) : Nat := h / 2 ^ lbs % nblocks

/-- For sizes that are powers of two with at least one memory block, the
(block, offset) pair addressed by `CountHashTab` is exactly the hash value
reduced mod `size`. -/
theorem rowBucketIndex_eq_mod (lbs k h : Nat) (hk : lbs ≤ k) :
    rowBlockIndex lbs (2 ^ k / 2 ^ lbs) h * 2 ^ lbs + rowBucketOffset lbs h =
      h % 2 ^ k := by
  unfold rowBlockIndex rowBucketOffset
  have hdiv : 2 ^ k / 2 ^ lbs = 2 ^ (k - lbs) := by
    rw [Nat.pow_div hk (by omega)]
  have hsplit : 2 ^ k = 2 ^ lbs * 2 ^ (k - lbs) := by
    rw [← pow_add]
    congr 1
    omega
  rw [hdiv, hsplit, Nat.mod_mul]
  ring

/-! ## `mur/count/CountHashTab.py` — constructor

`CountHashTab.__init__` rejects sizes that are not powers of two
(`size & (size - 1) != 0`), counter widths outside `{8, 16, 32}`, and (via
the two `Hash` submodules) input widths outside `{32, 48, 64}`.  It then
allocates `size // (1 << log_block_size)` memory blocks of
`1 << log_block_size` counters each (`log_block_size` defaults to 11). -/

/-- Static configuration produced by a successful `CountHashTab.__init__`. -/
structure CountHashTabCfg where
  size : Nat
  counterWidth : Nat
  inputDataWidth : Nat
  logBlockSize : Nat
  nblocks : Nat
deriving DecidableEq, Repr

/-- `CountHashTab.__init__`: validation and memory-block allocation.
`none` models a constructor `ValueError` (from `CountHashTab` itself or from
its `Hash`/`Mod65521` submodules). -/
def mkCountHashTab (size counterWidth inputDataWidth : Nat)
    (logBlockSize : Nat := 11) : Option CountHashTabCfg :=
  if size &&& (size - 1) ≠ 0 then none
  else if counterWidth ≠ 8 ∧ counterWidth ≠ 16 ∧ counterWidth ≠ 32 then none
  else if inputDataWidth ≠ 32 ∧ inputDataWidth ≠ 48 ∧ inputDataWidth ≠ 64 then
    none
  else some
    { size := size
      counterWidth := counterWidth
      inputDataWidth := inputDataWidth
      logBlockSize := logBlockSize
      nblocks := size / 2 ^ logBlockSize }

/-! ## `mur/count/CountHashTab.py` — the degenerate zero-block instance

When `size < 2 ^ log_block_size` the allocation loop
`for i in range(size // (1 << log_block_size))` runs zero times: there are no
memory blocks, no read or write ports, and every per-port loop in
`elaborate` is empty.  The only live logic is the query-valid shift chain
`req_start → req_save → req_ready → req_final_answer_ready`; the
`req_answer` register has no driver (the loop assigning it iterates over the
empty port list), so it keeps its reset value `0` forever.  `query_resp`
returns `{count: req_answer, valid: req_final_answer_ready}`. -/

/-- State of a zero-block `CountHashTab` (the registers that remain
observable through `query_resp`). -/
structure ZeroBlockRowState where
  reqStart : Bool
  reqSave : Bool
  reqReady : Bool
  reqFinalAnswerReady : Bool
  reqAnswer : Nat
deriving DecidableEq, Repr

/-- Reset state of the zero-block row. -/
def ZeroBlockRowState.init : ZeroBlockRowState :=
  { reqStart := false, reqSave := false, reqReady := false
    reqFinalAnswerReady := false, reqAnswer := 0 }

/-- One cycle of the zero-block row.  The input is the pair of hash-result
events delivered this cycle (`query_hash.result.valid`,
`insert_hash.result.valid`); a query accepted at cycle `t` surfaces here a
fixed number of hash-latency cycles later.  Inserts drive nothing (no write
ports exist), and `req_answer` is never assigned. -/
def ZeroBlockRowState.step (queryValid : Bool) (s : ZeroBlockRowState) :
    ZeroBlockRowState :=
  { reqStart := queryValid
    reqSave := s.reqStart
    reqReady := s.reqSave
    reqFinalAnswerReady := s.reqReady
    reqAnswer := s.reqAnswer }

/-- Run the zero-block row over a trace of query-hash-valid events. -/
def ZeroBlockRowState.run (tr : List Bool) : ZeroBlockRowState :=
  tr.foldl (fun s qv => ZeroBlockRowState.step qv s) ZeroBlockRowState.init

theorem zeroBlockRow_answer_zero (tr : List Bool) :
    (ZeroBlockRowState.run tr).reqAnswer = 0 := by
  suffices h : ∀ s : ZeroBlockRowState,
      (tr.foldl (fun s qv => ZeroBlockRowState.step qv s) s).reqAnswer =
        s.reqAnswer by
    exact h ZeroBlockRowState.init
  induction tr with
  | nil => intro s; rfl
  | cons b bs ih => intro s; exact ih _

/-! ## `mur/count/CountHashTab.py` — single-block cycle-accurate model

Cycle-accurate embedding of `CountHashTab.elaborate` for the configuration
with exactly one memory block (`size = 2 ^ log_block_size`, the smallest
size with any storage; `CountMinSketch` uses the default
`log_block_size = 11`, i.e. `size = 2048`).

With one block, all of `mem_idx`, `mem_idx_before` and `mem_idx_next` are
`Signal(range(1))`, which is zero bits wide: they are constantly `0`, every
comparison against them (`mem_idx == i`, `mem_idx == mem_idx_before`) is
true, and `read_mult[0]` is `1` from the second cycle on.  Accordingly those
signals are dropped from the state and the comparisons inlined as true;
`read_mult[0]` is kept (`readMult`) because its reset value is `0` for one
cycle.  `req_adress_before_before` and `read_mult_before` are assigned but
read nowhere, and `clr_addr` is written but read nowhere; they are omitted.

One `step` is one clock edge: every field of the result is computed from the
pre-edge state, mirroring `m.d.sync` last-assignment-wins semantics.  The
memory is one function `Nat → Nat` (2048 counters); the write port applies
`wr.en/addr/data` during the cycle, and the read port is registered with
`transparent_for=[wr]`: its next data is the value being written this cycle
when addresses match, else the stored value.

The per-cycle input carries the hash-result events (`insert_hash.result`
and `query_hash.result` deliver `valid=1` exactly one fixed hash latency
after the corresponding `insert`/`query_req` call, so a trace of events is a
shifted copy of the trace of accepted operations) and the `clear` method
call.  One abstraction: `req_address` is re-assigned every cycle from the
query hash unit's result register even on non-valid cycles; here it holds
its value on non-valid cycles instead.  The difference is observable only
in `req_answer` on cycles where `req_final_answer_ready = 0`, i.e. never
through a completed query, and never in the memory. -/

/-- Hash-result / method-call events arriving at the row in one cycle. -/
structure RowInput where
  ins : Option Nat
  qry : Option Nat
  clr : Bool
deriving DecidableEq, Repr

/-- The idle cycle: no hash result valid, no `clear` call. -/
def RowInput.idle : RowInput := { ins := none, qry := none, clr := false }

/-- An `insert_hash.result` event with hash value `h`. -/
def RowInput.insEv (h : Nat) : RowInput :=
  { ins := some h, qry := none, clr := false }

/-- A `query_hash.result` event with hash value `h`. -/
def RowInput.qryEv (h : Nat) : RowInput :=
  { ins := none, qry := some h, clr := false }

/-- A `clear()` method call. -/
def RowInput.clrEv : RowInput := { ins := none, qry := none, clr := true }

/-- Registers of the single-block `CountHashTab`, named after the source
signals. -/
@[ext]
structure RowState where
  mem : Nat → Nat
  reqStart : Bool
  reqSave : Bool
  reqReady : Bool
  reqFinalAnswerReady : Bool
  reqAddress : Nat
  reqAdressBefore : Nat
  incStart : Bool
  insertIncrementing : Bool
  insertWriting : Bool
  rdAddr : Nat
  rdData : Nat
  reqReadValue : Nat
  writeAddrNextNext : Nat
  writeAddrNext : Nat
  writeAddr : Nat
  wrEn : Bool
  wrAddr : Nat
  wrData : Nat
  extraAddWrite : Bool
  addIncBefore : Bool
  addIncBefore2 : Bool
  reqAnswer : Nat
  readMult : Bool
  clrWaiting : Nat
  clrRunning : Bool

/-- Reset state: all registers zero, all 2048 counters initialised to `0`
(`init=[0] * (1 << log_block_size)`). -/
def RowState.init : RowState :=
  { mem := fun _ => 0
    reqStart := false, reqSave := false, reqReady := false
    reqFinalAnswerReady := false
    reqAddress := 0, reqAdressBefore := 0
    incStart := false, insertIncrementing := false, insertWriting := false
    rdAddr := 0, rdData := 0, reqReadValue := 0
    writeAddrNextNext := 0, writeAddrNext := 0, writeAddr := 0
    wrEn := false, wrAddr := 0, wrData := 0
    extraAddWrite := false, addIncBefore := false, addIncBefore2 := false
    reqAnswer := 0, readMult := false, clrWaiting := 0, clrRunning := false }

/-- One clock cycle of the single-block `CountHashTab`.
`w` is `counter_width`, `lbs` is `log_block_size` (default 11 in the
source). -/
def RowState.step (w lbs : Nat) (inp : RowInput) (s : RowState) : RowState :=
  let bs := 2 ^ lbs
  -- write port action during this cycle
  let memN := if s.wrEn then Function.update s.mem s.wrAddr s.wrData else s.mem
  -- transparent registered read port (`transparent_for=[wr]`, `rd.en = 1`)
  let rdDataN :=
    if s.wrEn ∧ s.wrAddr = s.rdAddr then s.wrData else s.mem s.rdAddr
  -- insert write-back (`with m.If(rmul): wr.data / wr.en / wr.addr`),
  -- defaults `wr.en.eq(0)` and hold otherwise
  let wrEnB := if s.readMult then s.insertWriting else false
  let wrAddrB := if s.readMult then s.writeAddr else s.wrAddr
  let wrDataB :=
    if s.readMult
      then (s.reqReadValue + 1 + (if s.extraAddWrite then 1 else 0)) % 2 ^ w
      else s.wrData
  -- clear countdown / sweep overrides (program-order later than the
  -- write-back block)
  let startSweep := s.clrWaiting = 1
  let wrEnN := if s.clrRunning ∨ startSweep then true else wrEnB
  let wrAddrN :=
    if s.clrRunning then (s.wrAddr + 1) % bs
    else if startSweep then 0 else wrAddrB
  let wrDataN := if s.clrRunning ∨ startSweep then 0 else wrDataB
  let clrRunningN :=
    if s.clrRunning then (if s.wrAddr = bs - 2 then false else true)
    else if startSweep then true else false
  -- countdown, then the `clear` method body (last in program order)
  let clrWaitingN :=
    if inp.clr then 20
    else if 0 < s.clrWaiting then s.clrWaiting - 1 else s.clrWaiting
  { mem := memN
    reqStart := inp.qry.isSome
    reqSave := s.reqStart
    reqReady := s.reqSave
    reqFinalAnswerReady := s.reqReady
    reqAddress :=
      match inp.qry with
      | some h => h % bs
      | none => s.reqAddress
    reqAdressBefore := s.reqAddress
    incStart := inp.ins.isSome
    insertIncrementing := s.incStart
    insertWriting := s.insertIncrementing
    -- both transactions assign `rd.addr`; the insert transaction is defined
    -- later in `elaborate`, so it wins when both hashes are valid
    rdAddr :=
      match inp.ins with
      | some h => h % bs
      | none =>
        match inp.qry with
        | some h => h % bs
        | none => s.rdAddr
    rdData := rdDataN
    reqReadValue := s.rdData
    writeAddrNextNext :=
      match inp.ins with
      | some h => h % bs
      | none => s.writeAddrNextNext
    writeAddrNext := s.writeAddrNextNext
    writeAddr := s.writeAddrNext
    wrEn := wrEnN
    wrAddr := wrAddrN
    wrData := wrDataN
    extraAddWrite :=
      s.insertWriting && decide (s.writeAddrNext = s.writeAddr)
    addIncBefore := s.wrEn && decide (s.wrAddr = s.reqAdressBefore)
    addIncBefore2 :=
      s.insertWriting && decide (s.reqAdressBefore = s.writeAddr)
    reqAnswer :=
      if s.readMult
        then (s.reqReadValue + s.addIncBefore.toNat + s.addIncBefore2.toNat) %
          2 ^ w
        else s.reqAnswer
    readMult := true
    clrWaiting := clrWaitingN
    clrRunning := clrRunningN }

/-- Run the row from a state over a list of per-cycle inputs. -/
def RowState.run (w lbs : Nat) (tr : List RowInput) (s : RowState) : RowState :=
  tr.foldl (fun s inp => RowState.step w lbs inp s) s

/-- `query_resp` output: `{count: req_answer, valid: req_final_answer_ready}`
(the method has no ready condition and no state effect in the row). -/
def RowState.queryRespCount (s : RowState) : Nat := s.reqAnswer

/-- `query_resp` validity flag. -/
def RowState.queryRespValid (s : RowState) : Bool := s.reqFinalAnswerReady

/-- Number of insert hash-events in a trace whose bucket offset is `a`
(equivalently, accepted inserts whose key hashes to bucket `a`). -/
def countInsertsTo (lbs : Nat) (tr : List RowInput) (a : Nat) : Nat :=
  (tr.filter fun inp =>
    match inp.ins with
    | some h => decide (h % 2 ^ lbs = a)
    | none => false).length

/-- The event trace for two inserts to bucket `5` two cycles apart (one idle
cycle between the two accepted inserts), followed by a query of the same
bucket after the pipeline has drained. -/
def c2Trace : List RowInput :=
  [RowInput.insEv 5, RowInput.idle, RowInput.insEv 5, RowInput.idle,
    RowInput.idle, RowInput.idle, RowInput.idle, RowInput.idle,
    RowInput.qryEv 5, RowInput.idle, RowInput.idle, RowInput.idle]

/-- A row state with an idle pipeline: no insert in flight, no write pending,
no clear running, and the steady value `read_mult = 1`. -/
def RowState.Quiescent (s : RowState) : Prop :=
  s.incStart = false ∧ s.insertIncrementing = false ∧
    s.insertWriting = false ∧ s.wrEn = false ∧ s.extraAddWrite = false ∧
    s.clrWaiting = 0 ∧ s.clrRunning = false ∧ s.readMult = true

instance (s : RowState) : Decidable s.Quiescent := by
  unfold RowState.Quiescent
  infer_instance

/-- From any quiescent state, a single insert to bucket `a` increments the
bucket mod `2 ^ w`: it reads the bucket three cycles after the hash event
and writes back `read + 1` (no forwarding term fires) two cycles later. -/
theorem row_isolated_insert (w a : Nat) (s : RowState) (ha : a < 2 ^ 11)
    (hq : s.Quiescent) :
    (RowState.run w 11 [RowInput.insEv a, RowInput.idle, RowInput.idle,
        RowInput.idle, RowInput.idle] s).mem a = (s.mem a + 1) % 2 ^ w := by
  obtain ⟨h1, h2, h3, h4, h5, h6, h7, h8⟩ := hq
  have hmod : a % 2 ^ 11 = a := Nat.mod_eq_of_lt ha
  simp only [RowState.run, List.foldl, RowState.step, RowInput.insEv,
    RowInput.idle, h1, h2, h3, h4, h5, h6, h7, h8, hmod]
  simp [Function.update_same]

/-! ### The clear sweep of `CountHashTab`

`clear()` sets `clr_waiting = 20`; the countdown runs 20 cycles, then the
sweep writes one address per cycle (`wr.addr.eq(wr.addr + 1)`), addresses
`0` through `2047`, during cycles `21` to `2068` after the call.  The
following phase lemmas track the whole state through a clear issued from an
idle row holding the value `7` in bucket `2047`. -/

/-- Memory with one stale counter: bucket `2047` holds `7`. -/
def staleMem : Nat → Nat := fun a => if a = 2047 then 7 else 0

/-- Idle row holding `staleMem`: the row as left after a count accumulated in
bucket `2047` and the pipeline drained (`read_mult` at its steady value). -/
def clearStart : RowState :=
  { RowState.init with mem := staleMem, readMult := true }

/-- State `k` cycles after the `clear()` call, for `1 ≤ k ≤ 20`
(the `clr_waiting` countdown phase; nothing is written). -/
def cdState (k : Nat) : RowState :=
  { mem := staleMem
    reqStart := false, reqSave := false, reqReady := false
    reqFinalAnswerReady := false
    reqAddress := 0, reqAdressBefore := 0
    incStart := false, insertIncrementing := false, insertWriting := false
    rdAddr := 0, rdData := 0, reqReadValue := 0
    writeAddrNextNext := 0, writeAddrNext := 0, writeAddr := 0
    wrEn := false, wrAddr := 0
    wrData := 1
    extraAddWrite := false, addIncBefore := false, addIncBefore2 := false
    reqAnswer := 0, readMult := true
    clrWaiting := 21 - k
    clrRunning := false }

/-- State `21 + j` cycles after the `clear()` call, for `0 ≤ j ≤ 2047`
(the sweep phase: addresses `< j` already zeroed, address `j` being
written this cycle). -/
def swState (j : Nat) : RowState :=
  { mem := fun a => if a < j then 0 else staleMem a
    reqStart := false, reqSave := false, reqReady := false
    reqFinalAnswerReady := false
    reqAddress := 0, reqAdressBefore := 0
    incStart := false, insertIncrementing := false, insertWriting := false
    rdAddr := 0, rdData := 0, reqReadValue := 0
    writeAddrNextNext := 0, writeAddrNext := 0, writeAddr := 0
    wrEn := true, wrAddr := j, wrData := 0
    extraAddWrite := false
    addIncBefore := decide (j = 1)
    addIncBefore2 := false
    reqAnswer := if j = 2 then 1 else 0
    readMult := true
    clrWaiting := 0
    clrRunning := decide (j ≤ 2046) }

/-- Row state `u + 1` cycles after a `clear()` call issued on `clearStart`
(only idle cycles afterwards). -/
def clearRun (u : Nat) : RowState :=
  (RowState.step 32 11 RowInput.idle)^[u]
    (RowState.step 32 11 RowInput.clrEv clearStart)

theorem clearRun_countdown (k : Nat) (hk : k ≤ 19) :
    clearRun k = cdState (k + 1) := by
  induction k with
  | zero => rfl
  | succ n ih =>
    rw [clearRun, Function.iterate_succ_apply', ← clearRun, ih (by omega)]
    have hn : n ≤ 18 := by omega
    interval_cases n <;> rfl

theorem swState_step (j : Nat) (hj : j ≤ 2046) :
    RowState.step 32 11 RowInput.idle (swState j) = swState (j + 1) := by
  have hd : decide (j ≤ 2046) = true := by simpa using hj
  simp only [RowState.step, swState, RowInput.idle, hd, Option.isSome_none]
  congr 1
  · -- memory: the sweep write zeroes one more bucket
    rw [if_pos trivial]
    funext a
    rw [Function.update_apply]
    unfold staleMem
    split_ifs <;> omega
  · -- rdData reads 0, forwarded from the sweep write or from a low bucket
    have h0 : staleMem 0 = 0 := rfl
    rw [h0]
    split_ifs <;> rfl
  · -- wrAddr advances by one (no wrap below 2048)
    rw [if_pos trivial]
    omega
  · -- addIncBefore: the sweep write of address 0 aliases req_adress_before
    rw [Bool.true_and]
    exact decide_eq_decide.mpr (by omega)
  · -- reqAnswer transient caused by the aliased addIncBefore
    by_cases h1 : j = 1
    · subst h1
      norm_num
    · have h2 : ¬j + 1 = 2 := by omega
      simp [h1, h2]
  · -- clrRunning drops once address 2046 has been issued
    norm_num
    by_cases h1 : j = 2046
    · subst h1
      norm_num
    · have h2 : j + 1 ≤ 2046 := by omega
      simp [h1, h2]

theorem clearRun_sweep (j : Nat) (hj : j ≤ 2047) :
    clearRun (20 + j) = swState j := by
  induction j with
  | zero =>
    rw [clearRun, show 20 + 0 = 19 + 1 by rfl, Function.iterate_succ_apply',
      ← clearRun, clearRun_countdown 19 (by omega)]
    rfl
  | succ n ih =>
    rw [clearRun, show 20 + (n + 1) = (20 + n) + 1 by omega,
      Function.iterate_succ_apply', ← clearRun, ih (by omega),
      swState_step n (by omega)]

/-- Bucket `2047` keeps its stale value for the first `2068` cycles after the
`clear()` call; it is zeroed only on cycle `2069`. -/
theorem clearRun_stale_tail (u : Nat) (hu : u ≤ 2067) :
    (clearRun u).mem 2047 = 7 := by
  rcases Nat.lt_or_ge u 20 with h | h
  · rw [clearRun_countdown u (by omega)]
    rfl
  · obtain ⟨j, rfl⟩ : ∃ j, u = 20 + j := ⟨u - 20, by omega⟩
    rw [clearRun_sweep j (by omega)]
    simp only [swState, staleMem]
    rw [if_neg (by omega : ¬(2047 : Nat) < j)]
    simp

/-- The sweep does eventually zero bucket `2047`, on cycle `2069` after the
call. -/
theorem clearRun_tail_zeroed : (clearRun 2068).mem 2047 = 0 := by
  rw [clearRun, show (2068 : Nat) = 2067 + 1 by rfl,
    Function.iterate_succ_apply', ← clearRun, clearRun_sweep 2047 (by omega)]
  simp [RowState.step, swState, Function.update_same]

/-! ## `mur/count/CountMinSketch.py`

The sketch broadcasts `insert`/`query_req` to `depth` `CountHashTab` rows
(each built with `size = width` and the default `log_block_size = 11`),
reduces `query_resp` counts with a chain of `Mux(cnt < expr, cnt, expr)`,
and blocks `insert`/`query_req`/`query_resp`/`clear` behind a top-level
`clr_running` timer that it releases after exactly `width` cycles
(`with m.If(clr_counter == self.width - 1): clr_running.eq(0)`). -/

/-- Constructor of `CountMinSketch`: `depth ≥ 1`, optional `hash_params`
must match `depth`, and each row is a `CountHashTab` with `size = width`
and the default `log_block_size`. -/
def mkCountMinSketch (depth width counterWidth inputDataWidth : Nat)
    (hashParamsLen : Option Nat := none) : Option (List CountHashTabCfg) :=
  if depth < 1 then none
  else if hashParamsLen.isSome ∧ hashParamsLen ≠ some depth then none
  else
    match mkCountHashTab width counterWidth inputDataWidth with
    | none => none
    | some cfg => some (List.replicate depth cfg)

/-- The `query_resp` reduction: `expr = counts[0]`, then
`expr = Mux(cnt < expr, cnt, expr)` over the remaining rows. -/
def muxMinChain (counts : List Nat) : Nat :=
  match counts with
  | [] => 0
  | c :: cs => cs.foldl (fun expr cnt => if cnt < expr then cnt else expr) c

theorem natMin_ite (c a : Nat) : Nat.min c a = if c ≤ a then c else a := rfl

theorem muxStep_eq_min (e a : Nat) : (if a < e then a else e) = Nat.min e a := by
  rw [natMin_ite]
  split_ifs <;> omega

theorem muxFold_eq (cs : List Nat) :
    ∀ c, cs.foldl (fun expr cnt => if cnt < expr then cnt else expr) c =
      cs.foldl Nat.min c := by
  induction cs with
  | nil => intro c; rfl
  | cons a as ih =>
    intro c
    simp only [List.foldl]
    rw [muxStep_eq_min, ih]

theorem muxMinChain_eq_foldl_min (c : Nat) (cs : List Nat) :
    muxMinChain (c :: cs) = cs.foldl Nat.min c :=
  muxFold_eq cs c

theorem foldl_min_le (cs : List Nat) : ∀ c, cs.foldl Nat.min c ≤ c := by
  induction cs with
  | nil => intro c; exact Nat.le_refl c
  | cons a as ih =>
    intro c
    calc (a :: as).foldl Nat.min c = as.foldl Nat.min (Nat.min c a) := rfl
    _ ≤ Nat.min c a := ih _
    _ ≤ c := Nat.min_le_left _ _

theorem foldl_min_le_mem (cs : List Nat) :
    ∀ c, ∀ x ∈ cs, cs.foldl Nat.min c ≤ x := by
  induction cs with
  | nil => intro c x hx; cases hx
  | cons a as ih =>
    intro c x hx
    rcases List.mem_cons.mp hx with h | h
    · have h2 : (a :: as).foldl Nat.min c ≤ Nat.min c a := foldl_min_le as _
      have h3 : Nat.min c a ≤ a := by
        rw [natMin_ite]
        split_ifs <;> omega
      omega
    · exact ih (Nat.min c a) x h

theorem foldl_min_mem (cs : List Nat) : ∀ c, cs.foldl Nat.min c ∈ c :: cs := by
  induction cs with
  | nil => intro c; exact List.mem_singleton.mpr rfl
  | cons a as ih =>
    intro c
    have h := ih (Nat.min c a)
    rcases List.mem_cons.mp h with h1 | h1
    · rcases Nat.le_total c a with hle | hle
      · have h2 : Nat.min c a = c := by
          rw [natMin_ite]
          split_ifs
          all_goals omega
        rw [List.foldl_cons, h1, h2]
        exact List.mem_cons_self _ _
      · have h2 : Nat.min c a = a := by
          rw [natMin_ite]
          split_ifs <;> omega
        rw [List.foldl_cons, h1, h2]
        exact List.mem_cons_of_mem _ (List.mem_cons_self _ _)
    · exact List.mem_cons_of_mem _ (List.mem_cons_of_mem _ h1)

/-- The top-level clear timer of `CountMinSketch`: `clr_running` and
`clr_counter` (a `Signal(range(width + 1))`). -/
structure CMSClrState where
  running : Bool
  counter : Nat
deriving DecidableEq, Repr

/-- Reset state of the `CountMinSketch` clear timer. -/
def CMSClrState.init : CMSClrState := { running := false, counter := 0 }

/-- One cycle of the `CountMinSketch` clear logic.  `call` is a `clear()`
request this cycle; it is accepted only when ready (`ready=~clr_running`).
All rows receive their own `clear()` in the same cycle.  While running, the
timer counts and releases after `width` cycles.  `bits` is the width of
`clr_counter = Signal(range(width + 1))`, i.e. `bits_for(width)` (12 for
width 2048); the counter stays below `width`, so the truncation never
fires. -/
def CMSClrState.step (width bits : Nat) (call : Bool) (s : CMSClrState) :
    CMSClrState :=
  if call ∧ s.running = false then { running := true, counter := 0 }
  else if s.running then
    { running := if s.counter = width - 1 then false else true
      counter := (s.counter + 1) % 2 ^ bits }
  else s

/-- `insert`/`query_req`/`query_resp`/`clear` readiness gate at the sketch
level (`ready=~clr_running`, plus `resp_valid` for `query_resp`). -/
def CMSClrState.methodsBlocked (s : CMSClrState) : Bool := s.running

/-- Sketch clear-timer state `u + 1` cycles after an accepted `clear()`
call from reset, width 2048. -/
def cmsClrRun (u : Nat) : CMSClrState :=
  (CMSClrState.step 2048 12 false)^[u]
    (CMSClrState.step 2048 12 true CMSClrState.init)

theorem cmsClrRun_running (u : Nat) (hu : u ≤ 2047) :
    cmsClrRun u = { running := true, counter := u } := by
  induction u with
  | zero => rfl
  | succ n ih =>
    rw [cmsClrRun, Function.iterate_succ_apply', ← cmsClrRun, ih (by omega)]
    unfold CMSClrState.step
    rw [if_neg (by simp : ¬(false = true ∧ true = false))]
    dsimp only
    rw [if_pos rfl, if_neg (by omega : ¬n = 2048 - 1)]
    simp only [CMSClrState.mk.injEq, true_and]
    omega

/-- The sketch-level block is released `width + 1` cycles after the
`clear()` call: `clr_running` is already 0 on cycle 2049 (width 2048). -/
theorem cmsClrRun_released : (cmsClrRun 2048).methodsBlocked = false := by
  rw [cmsClrRun, show (2048 : Nat) = 2047 + 1 by rfl,
    Function.iterate_succ_apply', ← cmsClrRun, cmsClrRun_running 2047 (by omega)]
  rfl

/-! ## `mur/count/RollingCountMinSketch.py` — rotation control

Control registers of the double-buffered rolling sketch: `_active_sel`,
`_mode`, `_clr_pending`, `_clr_busy`, `_clr_timer`, plus the two inner
`CountMinSketch` clear timers (the standby sketch's `clear()` is invoked by
the `BackgroundClear` transaction).  `change_roles` is ready iff
`(~mode) & ~clr_busy & ~clr_pending`; `set_mode` iff `~clr_busy`;
`BackgroundClear` fires when `clr_pending & ~clr_busy` and the standby
sketch's `clear` is ready; the busy timer releases after `width` cycles
(`with m.If(clr_timer == width - 1): clr_busy.eq(0)`). -/

/-- Control state of `RollingCountMinSketch` (width 2048 instantiation for
the timers; `_clr_timer = Signal(range(width + 1))` is 12 bits wide). -/
structure RCMSState where
  mode : Bool
  activeSel : Bool
  clrPending : Bool
  clrBusy : Bool
  clrTimer : Nat
  cms0Clr : CMSClrState
  cms1Clr : CMSClrState
deriving DecidableEq, Repr

/-- Reset state of the rolling-sketch control. -/
def RCMSState.init : RCMSState :=
  { mode := false, activeSel := false, clrPending := false, clrBusy := false
    clrTimer := 0, cms0Clr := CMSClrState.init, cms1Clr := CMSClrState.init }

/-- `change_roles` readiness: `(~self._mode) & ~self._clr_busy &
~self._clr_pending`. -/
def RCMSState.changeRolesReady (s : RCMSState) : Bool :=
  !s.mode && !s.clrBusy && !s.clrPending

/-- One cycle of the rolling-sketch control for `width = 2048`.
`cr` requests `change_roles()`, `sm` requests `set_mode(m)`; each is
accepted only when its ready condition holds.  The `BackgroundClear`
transaction fires whenever it can, calling `clear()` on the standby
sketch (`cms1` when `_active_sel == 0`, else `cms0`). -/
def RCMSState.step (cr : Bool) (sm : Option Bool) (s : RCMSState) :
    RCMSState :=
  let crAcc := cr && s.changeRolesReady
  let smAcc := sm.isSome && !s.clrBusy
  let standbyReady :=
    if s.activeSel then !s.cms0Clr.running else !s.cms1Clr.running
  let bgFires := s.clrPending && !s.clrBusy && standbyReady
  { mode := if smAcc then sm.getD false else s.mode
    activeSel := if crAcc then !s.activeSel else s.activeSel
    clrPending := if crAcc then true else if bgFires then false else s.clrPending
    clrBusy :=
      if bgFires then true
      else if s.clrBusy then
        (if s.clrTimer = 2048 - 1 then false else true)
      else s.clrBusy
    clrTimer :=
      if bgFires then 0
      else if s.clrBusy then (s.clrTimer + 1) % 2 ^ 12 else s.clrTimer
    cms0Clr :=
      CMSClrState.step 2048 12 (bgFires && s.activeSel) s.cms0Clr
    cms1Clr :=
      CMSClrState.step 2048 12 (bgFires && !s.activeSel) s.cms1Clr }

/-- Rolling-control state `u + 1` cycles after an accepted `change_roles()`
from reset (with `change_roles` requested every cycle afterwards as
well). -/
def rcmsRun (u : Nat) : RCMSState :=
  (RCMSState.step true none)^[u] (RCMSState.step true none RCMSState.init)

theorem rcmsRun_zero :
    rcmsRun 0 =
      { mode := false, activeSel := true, clrPending := true, clrBusy := false
        clrTimer := 0, cms0Clr := CMSClrState.init
        cms1Clr := CMSClrState.init } := rfl

/-- During the busy window the timer counts and the standby sketch's own
clear timer runs alongside. -/
theorem rcmsRun_busy (u : Nat) (h1 : 1 ≤ u) (hu : u ≤ 2048) :
    rcmsRun u =
      { mode := false, activeSel := true, clrPending := false
        clrBusy := true, clrTimer := u - 1
        cms0Clr := { running := true, counter := u - 1 }
        cms1Clr := CMSClrState.init } := by
  induction u with
  | zero => omega
  | succ n ih =>
    rcases Nat.eq_or_lt_of_le h1 with h | h
    · rw [rcmsRun, ← h]
      rfl
    · have hn1 : 1 ≤ n := by omega
      rw [rcmsRun, Function.iterate_succ_apply', ← rcmsRun, ih hn1 (by omega)]
      have hne : ¬(n - 1 = 2048 - 1) := by omega
      unfold RCMSState.step RCMSState.changeRolesReady CMSClrState.step
      norm_num [hne, CMSClrState.init, RCMSState.mk.injEq, CMSClrState.mk.injEq]
      omega

/-- `change_roles` goes not-ready on the cycle after acceptance and stays
not-ready through cycle `width + 1`; it is ready again exactly on cycle
`width + 2` (2050 for width 2048), at which point the standby sketch
(which the second rotation makes UPDATE-active) has also just re-opened
its own methods, although its row sweep is still running. -/
theorem rcmsRun_reready :
    (rcmsRun 2049).changeRolesReady = true ∧
      (rcmsRun 2048).changeRolesReady = false ∧
      (rcmsRun 2049).cms0Clr.running = false := by
  have h2048 := rcmsRun_busy 2048 (by omega) (by omega)
  have h2049 : rcmsRun 2049 =
      { mode := false, activeSel := true, clrPending := false
        clrBusy := false, clrTimer := 2048 % 2 ^ 12
        cms0Clr := { running := false, counter := 2048 % 2 ^ 12 }
        cms1Clr := CMSClrState.init } := by
    rw [rcmsRun, show (2049 : Nat) = 2048 + 1 by rfl,
      Function.iterate_succ_apply', ← rcmsRun, h2048]
    rfl
  refine ⟨?_, ?_, ?_⟩
  · rw [h2049]
    rfl
  · rw [h2048]
    rfl
  · rw [h2049]

/-! ## `mur/count/VolCounter.py`

Registers: `counter = Signal(range(window))`, `acc = Signal(sum_width)` with
`sum_width = input_width + ceil_log2(window)`, and `mode_set_ready`.  The
`counter` block runs unconditionally every cycle; `add_sample` (when
called) overrides the `acc` assignment (its body is later in program
order).  `result` is ready on `mode_set_ready` and returns
`Mux(acc > threshold, 1, 0)`. -/

/-- Registers of `VolCounter`. -/
structure VolState where
  counter : Nat
  acc : Nat
  modeSetReady : Bool
deriving DecidableEq, Repr

/-- Reset state of `VolCounter`. -/
def VolState.init : VolState :=
  { counter := 0, acc := 0, modeSetReady := false }

/-- One clock cycle of `VolCounter`.  `samp` is an accepted
`add_sample(data)` call this cycle (the method has no ready condition).
`cbits` is the width of `Signal(range(window))` (`bits_for(window - 1)`)
and `sw` is `sum_width`; both truncations are kept although the proofs
show they never fire. -/
def VolState.step (window cbits sw : Nat) (samp : Option Nat) (s : VolState) :
    VolState :=
  let reset := s.counter = window - 1
  { counter := if reset then 0 else (s.counter + 1) % 2 ^ cbits
    acc :=
      match samp with
      | some d => (if reset then d else s.acc + d) % 2 ^ sw
      | none => if reset then 0 else s.acc
    modeSetReady := decide (s.counter + 1 = window - 1) }

/-- `VolCounter` state after `n` cycles from reset, fed by the sample
stream `tr` (`tr v` is the sample accepted during cycle `v`, if any). -/
def volRun (window cbits sw : Nat) (tr : Nat → Option Nat) : Nat → VolState
  | 0 => VolState.init
  | n + 1 => VolState.step window cbits sw (tr n) (volRun window cbits sw tr n)

/-- `result` readiness (`ready=mode_set_ready`). -/
def VolState.resultReady (s : VolState) : Bool := s.modeSetReady

/-- `result` return value: `Mux(acc > self.threshold, 1, 0)`. -/
def VolState.resultMode (threshold : Nat) (s : VolState) : Bool :=
  decide (threshold < s.acc)

/-- Value contributed by cycle `v` of the sample stream (0 on idle
cycles). -/
def sampleVal (tr : Nat → Option Nat) (v : Nat) : Nat := (tr v).getD 0

/-- Number of samples accepted during the first `n` cycles. -/
def volSampleCount (tr : Nat → Option Nat) (n : Nat) : Nat :=
  ((List.range n).filter fun v => (tr v).isSome).length

/-- First cycle of the accumulation epoch that cycle `n` belongs to: the
accumulator is cleared (or re-seeded) on every cycle `≡ window - 1`
(mod `window`), so the epoch of cycle `n` starts just after the last such
boundary. -/
def accStart (window n : Nat) : Nat :=
  if n < window then 0 else n - 1 - (n - window) % window

theorem succ_mod_window (window n : Nat) (hw : 2 ≤ window) :
    (n + 1) % window =
      if n % window = window - 1 then 0 else n % window + 1 := by
  have hlt : n % window < window := Nat.mod_lt _ (by omega)
  rw [Nat.add_mod, Nat.mod_eq_of_lt (show 1 < window by omega)]
  by_cases h : n % window = window - 1
  · rw [if_pos h, h, show window - 1 + 1 = window by omega, Nat.mod_self]
  · rw [if_neg h]
    exact Nat.mod_eq_of_lt (by omega)

theorem sub_window_mod (window n : Nat) (hn : window ≤ n) :
    (n - window) % window = n % window := by
  conv_rhs => rw [show n = n - window + window by omega]
  rw [Nat.add_mod_right]

theorem accStart_le (window n : Nat) : accStart window n ≤ n := by
  unfold accStart
  split <;> omega

theorem accStart_succ_reset (window n : Nat) (hw : 2 ≤ window)
    (hr : n % window = window - 1) : accStart window (n + 1) = n := by
  have hmle : n % window ≤ n := Nat.mod_le n window
  have hn : window ≤ n + 1 := by omega
  unfold accStart
  rw [if_neg (by omega)]
  have h0 : (n + 1 - window) % window = 0 := by
    rw [sub_window_mod window (n + 1) hn, succ_mod_window window n hw,
      if_pos hr]
  rw [h0]
  omega

theorem accStart_succ_noreset (window n : Nat) (hw : 2 ≤ window)
    (hr : ¬n % window = window - 1) :
    accStart window (n + 1) = accStart window n := by
  have hlt : n % window < window := Nat.mod_lt _ (by omega)
  unfold accStart
  rcases Nat.lt_or_ge (n + 1) window with h | h
  · rw [if_pos h, if_pos (by omega)]
  · rcases Nat.lt_or_ge n window with h2 | h2
    · exfalso
      have : n = window - 1 := by omega
      rw [Nat.mod_eq_of_lt h2] at hr
      omega
    · rw [if_neg (by omega), if_neg (by omega)]
      have hs : (n + 1 - window) % window = n % window + 1 := by
        rw [show n + 1 - window = n - window + 1 by omega,
          succ_mod_window window (n - window) hw, sub_window_mod window n h2,
          if_neg hr]
      rw [hs, sub_window_mod window n h2]
      omega

theorem epoch_card_bound (window n : Nat) (hw : 2 ≤ window)
    (hr : ¬n % window = window - 1) : n - accStart window n ≤ window - 1 := by
  have hlt : n % window < window := Nat.mod_lt _ (by omega)
  unfold accStart
  rcases Nat.lt_or_ge n window with h | h
  · rw [if_pos h]
    rw [Nat.mod_eq_of_lt h] at hr hlt
    omega
  · rw [if_neg (by omega), sub_window_mod window n h]
    omega

theorem sampleVal_le (tr : Nat → Option Nat) (iw : Nat)
    (hbd : ∀ v d, tr v = some d → d < 2 ^ iw) (v : Nat) :
    sampleVal tr v ≤ 2 ^ iw - 1 := by
  unfold sampleVal
  cases h : tr v with
  | none => simp
  | some d =>
    have := hbd v d h
    simp only [Option.getD_some]
    omega

theorem epoch_sum_le (tr : Nat → Option Nat) (iw a n : Nat)
    (hbd : ∀ v d, tr v = some d → d < 2 ^ iw) :
    ∑ v in Finset.Ico a n, sampleVal tr v ≤ (n - a) * (2 ^ iw - 1) := by
  calc ∑ v in Finset.Ico a n, sampleVal tr v ≤
      ∑ _v in Finset.Ico a n, (2 ^ iw - 1) :=
        Finset.sum_le_sum fun v _ => sampleVal_le tr iw hbd v
  _ = (n - a) * (2 ^ iw - 1) := by
      rw [Finset.sum_const, Nat.card_Ico, smul_eq_mul]

/-- Master invariant of `VolCounter` from reset: the cycle counter equals
the cycle index mod `window`, `mode_set_ready` is up exactly on the last
cycle of each window, and the accumulator holds the exact sum of the
samples of the current accumulation epoch. -/
theorem volRun_invariant (window cbits sw iw : Nat) (hw : 2 ≤ window)
    (hcb : window - 1 < 2 ^ cbits) (hsw : window * 2 ^ iw ≤ 2 ^ sw)
    (tr : Nat → Option Nat) (hbd : ∀ v d, tr v = some d → d < 2 ^ iw)
    (n : Nat) :
    (volRun window cbits sw tr n).counter = n % window ∧
      (volRun window cbits sw tr n).modeSetReady =
        decide (n % window = window - 1) ∧
      (volRun window cbits sw tr n).acc =
        ∑ v in Finset.Ico (accStart window n) n, sampleVal tr v := by
  have hiw : 2 ^ iw ≤ 2 ^ sw := by
    have h1 : 1 * 2 ^ iw ≤ window * 2 ^ iw := Nat.mul_le_mul_right _ (by omega)
    omega
  induction n with
  | zero =>
    refine ⟨by simp [volRun, VolState.init, Nat.zero_mod], ?_, ?_⟩
    · simp only [volRun, VolState.init]
      rw [Nat.zero_mod]
      rw [eq_comm, decide_eq_false_iff_not]
      omega
    · simp [volRun, VolState.init, accStart]
  | succ n ih =>
    obtain ⟨ihc, ihm, iha⟩ := ih
    have hlt : n % window < window := Nat.mod_lt _ (by omega)
    by_cases hr : n % window = window - 1
    · -- reset cycle
      have hnext : (n + 1) % window = 0 := by
        rw [succ_mod_window window n hw, if_pos hr]
      have hstart : accStart window (n + 1) = n :=
        accStart_succ_reset window n hw hr
      refine ⟨?_, ?_, ?_⟩
      · simp only [volRun, VolState.step, ihc, hr, hnext]
        simp
      · simp only [volRun, VolState.step, ihc, hr, hnext]
        rw [eq_comm, decide_eq_decide]
        omega
      · rw [hstart, Finset.sum_Ico_succ_top (Nat.le_refl n),
          Finset.Ico_self, Finset.sum_empty]
        cases h : tr n with
        | none =>
          simp only [volRun, VolState.step, ihc, hr, h]
          simp [sampleVal, h]
        | some d =>
          have hd := hbd n d h
          simp only [volRun, VolState.step, ihc, hr, h, sampleVal,
            Option.getD_some, Nat.zero_add]
          rw [if_pos]
          · exact Nat.mod_eq_of_lt (by omega)
          · trivial
    · -- ordinary cycle
      have hnext : (n + 1) % window = n % window + 1 := by
        rw [succ_mod_window window n hw, if_neg hr]
      have hstart : accStart window (n + 1) = accStart window n :=
        accStart_succ_noreset window n hw hr
      have hcard : n - accStart window n ≤ window - 1 :=
        epoch_card_bound window n hw hr
      have hsum : (volRun window cbits sw tr n).acc ≤
          (window - 1) * (2 ^ iw - 1) := by
        rw [iha]
        calc ∑ v in Finset.Ico (accStart window n) n, sampleVal tr v ≤
            (n - accStart window n) * (2 ^ iw - 1) :=
              epoch_sum_le tr iw _ n hbd
        _ ≤ (window - 1) * (2 ^ iw - 1) := Nat.mul_le_mul_right _ hcard
      have hmulsw : window * 2 ^ iw ≤ 2 ^ sw := hsw
      have hwpos : 0 < 2 ^ iw := Nat.pos_pow_of_pos iw (by omega)
      refine ⟨?_, ?_, ?_⟩
      · simp only [volRun, VolState.step, ihc]
        rw [if_neg hr, hnext, Nat.mod_eq_of_lt (by omega)]
      · simp only [volRun, VolState.step, ihc, hnext]
      · rw [hstart, Finset.sum_Ico_succ_top (accStart_le window n)]
        cases h : tr n with
        | none =>
          simp only [volRun, VolState.step, ihc, h]
          rw [if_neg hr, iha]
          simp [sampleVal, h]
        | some d =>
          have hd := hbd n d h
          simp only [volRun, VolState.step, ihc, h, sampleVal,
            Option.getD_some]
          rw [if_neg hr, iha]
          apply Nat.mod_eq_of_lt
          have hb2 : (window - 1) * (2 ^ iw - 1) + 2 ^ iw ≤ window * 2 ^ iw := by
            have h2 : (window - 1) * (2 ^ iw - 1) ≤ (window - 1) * 2 ^ iw :=
              Nat.mul_le_mul_left _ (by omega)
            have h3 : (window - 1) * 2 ^ iw + 2 ^ iw = window * 2 ^ iw := by
              have h4 : window - 1 + 1 = window := by omega
              calc (window - 1) * 2 ^ iw + 2 ^ iw
                  = (window - 1 + 1) * 2 ^ iw := by ring
              _ = window * 2 ^ iw := by rw [h4]
            omega
          have hs2 := hsum
          have hrw : (∑ v in Finset.Ico (accStart window n) n, sampleVal tr v) =
              (volRun window cbits sw tr n).acc := iha.symm
          rw [hrw]
          omega

/-! ## `mur/count/CMSVolController.py` — decision combination

The query-response transaction (lines 171–187) reads the three per-sketch
estimates `q1`, `q2`, `q3`.  When not all requested queries have been
received and `q1` is valid it pushes
`Mux(q1.count + q2.count + q3.count > discover_threshold, 1, 0)` into the
egress FIFO; when all queries have been received and the insert backlog is
nonzero it pushes the backlog `_inserts_difference` as an admit credit.
(`ParserCMSVol.py` consumes `decision == 0` as "drop the packet" and any
positive decision as an admit credit.) -/

/-- Decision the controller pushes for one answered query:
`Mux(q1 + q2 + q3 > discover_threshold, 1, 0)` (Amaranth `+` widens, so the
sum is exact). -/
def queryDecision (discoverThreshold q1 q2 q3 : Nat) : Nat :=
  if discoverThreshold < q1 + q2 + q3 then 1 else 0

/-- Decision the spec describes for one answered query: `0` (drop) exactly
when the sum of the three per-sketch estimates exceeds the discard
threshold, a positive admit credit otherwise. -/
def specQueryDecision (discoverThreshold q1 q2 q3 : Nat) : Nat :=
  if discoverThreshold < q1 + q2 + q3 then 0 else 1

/-- Admit credit pushed once the insert backlog drains:
`_inserts_difference = _insert_requested - _insert_received` on 32-bit
registers. -/
def insertsDifference (requested received : Nat) : Nat :=
  (requested + (2 ^ 32 - received % 2 ^ 32)) % 2 ^ 32

/-- A power of two passes the constructor's power-of-two test
`size & (size - 1) == 0`. -/
theorem two_pow_land_pred (k : Nat) : 2 ^ k &&& (2 ^ k - 1) = 0 := by
  apply Nat.eq_of_testBit_eq
  intro i
  rw [Nat.testBit_land, Nat.zero_testBit]
  rcases eq_or_ne k i with h | h
  · subst h
    rw [Nat.testBit_two_pow_sub_one]
    simp
  · rw [Nat.testBit_two_pow_of_ne h]
    simp

/-! ## The claims -/

/-- Claim C1: "after inserting `k` exactly `c` times into an otherwise-idle
CountMinSketch, every completed query for `k` reports `count ≥ c`".
Refuted on the code: in `c2Trace` the key hashing to bucket `5` is inserted
twice (accepted two cycles apart) into an idle width-2048 row and then
queried; the query completes (`valid = 1`) but reports `count = 1 < 2`.
The second insert's read-modify-write misses both forwarding paths
(`extra_add_write` covers distance 1, read transparency distance ≥ 3), so
its write-back of `read + 1` overwrites the first insert's increment. -/
theorem c1_two_inserts_query_undercounts :
    countInsertsTo 11 c2Trace 5 = 2 ∧
      (RowState.run 8 11 c2Trace RowState.init).queryRespValid = true ∧
      (RowState.run 8 11 c2Trace RowState.init).queryRespCount = 1 :=
  ⟨rfl, rfl, rfl⟩

/-- Claim C2: "the row forwards (bypasses) the in-flight value instead of
reading stale memory, so no increment is ever lost: each bucket's final
value equals the number of accepted inserts that hash to it".  Refuted on
the code: after the two accepted inserts of `c2Trace` (same bucket, two
cycles apart) the bucket's final memory value is `1`, not `2` — the
forwarding terms cover the distance-1 and distance-≥3 cases but not
distance 2, where the second insert reads the pre-increment value during
the very cycle the first insert's write lands. -/
theorem c2_bucket_loses_distance_two_increment :
    countInsertsTo 11 c2Trace 5 = 2 ∧
      (RowState.run 8 11 c2Trace RowState.init).mem 5 = 1 :=
  ⟨rfl, rfl⟩

/-- Claim C3: "insert/query_req/query_resp are not ready until every row's
clear sweep has finished, and once `width + 2` cycles have elapsed after
acceptance, `query(k).count == 0` for every key `k`".  Refuted on the code:
`CountMinSketch.clear` blocks the methods for exactly `width = 2048` cycles
(`cmsClrRun 2048` has them re-enabled), but the row sweep spends 20
countdown cycles before writing its first address, so `width + 2 = 2050`
cycles after the call bucket `2047` still holds its stale value `7`
(`clearRun u` is the row state `u + 1` cycles after the accepted clear). -/
theorem c3_methods_reopen_before_sweep_finishes :
    (cmsClrRun 2048).methodsBlocked = false ∧
      (clearRun 2050).mem 2047 = 7 :=
  ⟨cmsClrRun_released, clearRun_stale_tail 2050 (by norm_num)⟩

/-- Claim C4: "`change_roles()` stays not-ready until a previously
triggered background clear has had at least `width` cycles to complete, and
the sketch that becomes UPDATE-active has zero counts in every bucket
before it accepts its first insert".  Refuted on the code: the ready gate
re-opens `width + 2` cycles after a `change_roles` (`rcmsRun 2049`), yet a
row clear started at the same time still carries the stale count `7` in
bucket `2047` at that cycle — the sweep needs `20 + width + 1 ≈ 2069`
cycles, so a second rotation can expose nonzero buckets in the
freshly-activated sketch. -/
theorem c4_reready_while_standby_buckets_stale :
    (rcmsRun 2049).changeRolesReady = true ∧
      (clearRun 2049).mem 2047 = 7 :=
  ⟨rcmsRun_reready.1, clearRun_stale_tail 2049 (by norm_num)⟩

/-- Claim C5: for every power-of-two size smaller than
`2 ^ log_block_size = 2048` (the `CMSVolController` default width `32`
included), `CountHashTab` construction succeeds but allocates zero memory
blocks, and every query response of the zero-block row reports `count = 0`
whatever hash-event trace preceded it. -/
theorem c5_small_sizes_allocate_no_blocks (size cw idw k : Nat)
    (tr : List Bool) (hs : size = 2 ^ k) (hk : k < 11)
    (hcw : cw = 8 ∨ cw = 16 ∨ cw = 32)
    (hidw : idw = 32 ∨ idw = 48 ∨ idw = 64) :
    mkCountHashTab size cw idw 11 =
      some { size := size, counterWidth := cw, inputDataWidth := idw,
             logBlockSize := 11, nblocks := 0 } ∧
      (ZeroBlockRowState.run tr).reqAnswer = 0 := by
  constructor
  · have hland : size &&& (size - 1) = 0 := by
      rw [hs]
      exact two_pow_land_pred k
    have hdiv : size / 2 ^ 11 = 0 := by
      apply Nat.div_eq_of_lt
      rw [hs]
      exact Nat.pow_lt_pow_right (by norm_num) hk
    unfold mkCountHashTab
    rw [if_neg (by simp [hland]),
      if_neg (by rcases hcw with h | h | h <;> simp [h]),
      if_neg (by rcases hidw with h | h | h <;> simp [h]), hdiv]
  · exact zeroBlockRow_answer_zero tr

/-- Witness for C5: the default `CMSVolController` row configuration
(`size = 32`, 32-bit counters, 64-bit keys) builds with zero blocks and a
concrete queried trace answers `0`. -/
theorem c5_small_sizes_witness :
    mkCountHashTab 32 32 64 11 =
      some { size := 32, counterWidth := 32, inputDataWidth := 64,
             logBlockSize := 11, nblocks := 0 } ∧
      (ZeroBlockRowState.run [true, false, false, false, false]).reqAnswer =
        0 :=
  c5_small_sizes_allocate_no_blocks 32 32 64 5
    [true, false, false, false, false] (by norm_num) (by norm_num)
    (Or.inr (Or.inr rfl)) (Or.inr (Or.inr rfl))

/-- Claim C6 counterexample: "the counter advances once per sample" fails —
after two cycles with no `add_sample` call at all the counter reads `2`,
although zero samples were passed (the counter register increments
unconditionally every clock cycle). -/
theorem c6_counter_advances_without_samples :
    (volRun 4 2 18 (fun _ => none) 2).counter = 2 ∧
      volSampleCount (fun _ => none) 2 = 0 :=
  ⟨rfl, rfl⟩

/-- Claim C6 (amended): the counter advances once per clock cycle (an idle
cycle counts as a zero-valued sample, exactly as the bench
`test_volcounter.py` models it); the accumulator equals the sum of the
samples of the current accumulation epoch; `result` is ready exactly on the
last cycle of each window and returns `mode = 1` iff that epoch's
accumulated sum exceeds the threshold, and the next cycle restarts counter
and accumulator. -/
theorem c6_amended_cycle_window_invariant (window cbits sw iw threshold : Nat)
    (hw : 2 ≤ window) (hcb : window - 1 < 2 ^ cbits)
    (hsw : window * 2 ^ iw ≤ 2 ^ sw) (tr : Nat → Option Nat)
    (hbd : ∀ v d, tr v = some d → d < 2 ^ iw) (n : Nat) :
    (volRun window cbits sw tr n).counter = n % window ∧
      (volRun window cbits sw tr n).resultReady =
        decide (n % window = window - 1) ∧
      (volRun window cbits sw tr n).acc =
        ∑ v in Finset.Ico (accStart window n) n, sampleVal tr v ∧
      (volRun window cbits sw tr n).resultMode threshold =
        decide (threshold <
          ∑ v in Finset.Ico (accStart window n) n, sampleVal tr v) := by
  obtain ⟨h1, h2, h3⟩ := volRun_invariant window cbits sw iw hw hcb hsw tr hbd n
  refine ⟨h1, h2, h3, ?_⟩
  simp only [VolState.resultMode, h3]

/-- Witness for the amended C6 at `window = 3` with one sample of value `7`
on cycle `0` and a threshold of `5`. -/
theorem c6_amended_witness :
    (volRun 3 2 8 (fun v => if v = 0 then some 7 else none) 2).counter =
        2 % 3 ∧
      (volRun 3 2 8 (fun v => if v = 0 then some 7 else none) 2).resultReady =
        decide (2 % 3 = 3 - 1) ∧
      (volRun 3 2 8 (fun v => if v = 0 then some 7 else none) 2).acc =
        ∑ v in Finset.Ico (accStart 3 2) 2,
          sampleVal (fun v => if v = 0 then some 7 else none) v ∧
      (volRun 3 2 8 (fun v => if v = 0 then some 7 else none) 2).resultMode
          5 =
        decide (5 <
          ∑ v in Finset.Ico (accStart 3 2) 2,
            sampleVal (fun v => if v = 0 then some 7 else none) v) :=
  c6_amended_cycle_window_invariant 3 2 8 3 5 (by norm_num) (by norm_num)
    (by norm_num) _
    (fun v d h => by
      by_cases hv : v = 0
      · rw [if_pos hv] at h
        have hd : d = 7 := by
          injection h with h2
          omega
        rw [hd]
        norm_num
      · rw [if_neg hv] at h
        exact Option.noConfusion h) 2

/-- Claim C7 counterexample: the fixed prime of the hash pipeline is
`P = 65521`, which is smaller than every supported key range (already the
32-bit one), not larger as the claim states. -/
theorem c7_prime_smaller_than_key_range :
    hashP = 65521 ∧ hashP < 2 ^ 32 :=
  ⟨rfl, by norm_num [hashP]⟩

/-- Claim C7 (amended): the pipelined `Hash`/`Mod65521` computation returns
exactly `(a * (x mod P) + b) mod P` with `P = 65521` (the key is reduced
mod `P` first; `P` is smaller than the key domains), and the `(block,
offset)` pair addressed by a power-of-two-sized row is that hash value
reduced mod the row size. -/
theorem c7_amended_hash_index (n a b x lbs k : Nat)
    (hn : n = 2 ∨ n = 3 ∨ n = 4) (ha : a < 2 ^ 16) (hb : b < 2 ^ 16)
    (hx : x < 2 ^ (16 * n)) (hk : lbs ≤ k) :
    hashFn n a b x = (a * (x % hashP) + b) % hashP ∧
      rowBlockIndex lbs (2 ^ k / 2 ^ lbs) (hashFn n a b x) * 2 ^ lbs +
          rowBucketOffset lbs (hashFn n a b x) =
        ((a * (x % hashP) + b) % hashP) % 2 ^ k := by
  have h1 := hashFn_eq n a b x hn ha hb hx
  exact ⟨h1, by rw [rowBucketIndex_eq_mod lbs k _ hk, h1]⟩

/-- Witness for the amended C7: a 32-bit key (`n = 2` 16-bit words),
`a = 3`, `b = 5`, the default row geometry `size = 2 ^ 11` with
`log_block_size = 11`. -/
theorem c7_amended_witness :
    hashFn 2 3 5 305419896 = (3 * (305419896 % hashP) + 5) % hashP ∧
      rowBlockIndex 11 (2 ^ 11 / 2 ^ 11) (hashFn 2 3 5 305419896) * 2 ^ 11 +
          rowBucketOffset 11 (hashFn 2 3 5 305419896) =
        ((3 * (305419896 % hashP) + 5) % hashP) % 2 ^ 11 :=
  c7_amended_hash_index 2 3 5 305419896 11 11 (Or.inl rfl) (by norm_num)
    (by norm_num) (by norm_num) (Nat.le_refl 11)

/-- Claim C8: "the Decision is 0 (drop) exactly when the sum of the three
per-sketch estimates exceeds the discard threshold, and a positive admit
credit otherwise".  Refuted on the code: the controller pushes
`Mux(q1 + q2 + q3 > discover_threshold, 1, 0)`, the exact inversion of the
spec's polarity — with threshold `0` and estimates `(1, 0, 0)` the sum
exceeds the threshold yet the pushed decision is `1` (admit), and with
estimates `(0, 0, 0)` (sum not exceeding) it is `0` (drop). -/
theorem c8_decision_polarity_inverted :
    queryDecision 0 1 0 0 = 1 ∧ queryDecision 0 0 0 0 = 0 ∧
      specQueryDecision 0 1 0 0 = 0 ∧ specQueryDecision 0 0 0 0 = 1 :=
  ⟨rfl, rfl, rfl, rfl⟩

/-- Claim C9: for every `depth ≥ 1` the `Mux` reduction chain of
`CountMinSketch.query_resp` computes exactly the straightforward linear
minimum of the per-row counts: it equals the `Nat.min`-fold, is below every
row's count, and is one of them. -/
theorem c9_mux_chain_is_linear_min (c : Nat) (cs : List Nat) :
    muxMinChain (c :: cs) = cs.foldl Nat.min c ∧
      (∀ d ∈ c :: cs, muxMinChain (c :: cs) ≤ d) ∧
      muxMinChain (c :: cs) ∈ c :: cs := by
  have he := muxMinChain_eq_foldl_min c cs
  refine ⟨he, ?_, ?_⟩
  · intro d hd
    rw [he]
    rcases List.mem_cons.mp hd with h | h
    · subst h
      exact foldl_min_le cs d
    · exact foldl_min_le_mem cs c d h
  · rw [he]
    exact foldl_min_mem cs c

/-- Claim C10: bucket counters wrap modulo `2 ^ counter_width`: an accepted
insert whose target bucket holds the maximum value `2 ^ counter_width - 1`
sets it to `0` (wrap-around, not saturation), for every supported counter
width. -/
theorem c10_counter_wraps (w a : Nat) (s : RowState)
    (_hw : w = 8 ∨ w = 16 ∨ w = 32) (ha : a < 2 ^ 11) (hq : s.Quiescent)
    (hmax : s.mem a = 2 ^ w - 1) :
    (RowState.run w 11 [RowInput.insEv a, RowInput.idle, RowInput.idle,
        RowInput.idle, RowInput.idle] s).mem a = 0 := by
  rw [row_isolated_insert w a s ha hq, hmax,
    Nat.sub_add_cancel Nat.one_le_two_pow, Nat.mod_self]

/-- Witness for C10: an 8-bit row whose bucket `5` holds `255` wraps to `0`
on the next insert. -/
theorem c10_counter_wraps_witness :
    (RowState.run 8 11 [RowInput.insEv 5, RowInput.idle, RowInput.idle,
        RowInput.idle, RowInput.idle]
      { RowState.init with
        readMult := true
        mem := fun a => if a = 5 then 255 else 0 }).mem
        5 = 0 :=
  c10_counter_wraps 8 5
    { RowState.init with
        readMult := true
        mem := fun a => if a = 5 then 255 else 0 }
    (Or.inl rfl) (by norm_num) (by decide) rfl

end MurCount
